import Mathlib

/-!
# Verification of the `gti` bootstrap (src/src/gti.rs, src/src/main.rs)

A shallow embedding of the `gti` crate's bootstrap phase:

* `git_validate_status` — spawn `git --version`, then walk upward from the
  current working directory looking for an entry named `.git`
  (src/src/gti.rs, lines 71–107);
* `GtiManager::new` — given a located `.git` path, ensure the sidecar
  directory `x-gti-info` exists beneath it (src/src/gti.rs, lines 52–68);
* `main` — run the two in sequence, logging locator failures through the
  `fallback_log!` macro and propagating manager failures out of `main`
  (src/src/main.rs).

Paths are modelled as lists of components from the filesystem root
(`[]` is the root, so `PathBuf::pop` drops the last component and
`parent().is_some()` is non-emptiness).  Filesystem reads are modelled by an
oracle `Fs` returning exactly what `std::fs::read_dir` offers: either an
error for the whole listing, or a list of per-entry results (each an error
or an entry).  Error-free filesystems are built from a concrete directory
tree `FsTree`, which also gives mutation semantics for
`DirBuilder::new().create` (non-recursive `mkdir`).
-/

/-- Kinds of I/O errors, mirroring the `std::io::ErrorKind` values the code
can produce or encounter. -/
inductive IoErrorKind where
  | NotFound
  | NotADirectory
  | AlreadyExists
  | InvalidInput
  | Other
deriving DecidableEq, Repr

/-- A `std::io::Error`: a kind plus a message. -/
structure IoError where
  kind : IoErrorKind
  msg : String
deriving DecidableEq, Repr

/-- The directory-entry kinds the search can meet (`DirEntry` file type). -/
inductive EntryKind where
  | file
  | dir
deriving DecidableEq, Repr

/-- The `InitializationError` enum of src/src/gti.rs (lines 21–31). -/
inductive InitializationError where
  | GitNotInstalled
  | GitValidation
  | RepositoryUnsearchable (e : IoError)
  | RepositoryNotFound
deriving DecidableEq, Repr

/-- The `Display` strings of `InitializationError`, from its `thiserror`
attributes (src/src/gti.rs, lines 21–31). -/
def InitializationError.message : InitializationError → String
  | .GitNotInstalled => "git is not installed"
  | .GitValidation => "could not validate git installation; version check failed"
  | .RepositoryUnsearchable _ => "io error searching for git directory"
  | .RepositoryNotFound => "git directory not found"

/-- Outcome of `Command::new("git").arg("--version").status()`: either the
child process could not be spawned, or it exited with a success flag. -/
inductive SpawnResult where
  | spawnErr
  | exited (success : Bool)
deriving DecidableEq, Repr

/-- A filesystem read oracle.  `readDir p` is the outcome of
`std::fs::read_dir` at path `p`: an error for the listing as a whole, or a
list of per-entry results, each either an I/O error or an entry
(name and kind). -/
structure Fs where
  readDir : List String → Except IoError (List (Except IoError (String × EntryKind)))

/-- The upward-search loop of `git_validate_status`
(src/src/gti.rs, lines 86–103).  The loop variable `rcur` holds the current
directory's components deepest-first, so that `PathBuf::pop` is `List.tail`
and `cur_dir.parent().is_some()` is non-emptiness.  Each pass lists the
current directory (`read_dir()?` — a listing error aborts through `?`),
drops per-entry errors (`.flatten()`), maps entries to their full paths
(`.map(|entry| entry.path())`), and returns the first path whose file name
is `.git` (`.find(...)`). -/
def git_dir_search_loop (fs : Fs) : List String → Except InitializationError (List String)
  | [] => .error .RepositoryNotFound
  | name :: rest =>
    match fs.readDir ((name :: rest).reverse) with
    | .error e => .error (.RepositoryUnsearchable e)
    | .ok listing =>
      match ((listing.filterMap Except.toOption).map
          (fun ent => (name :: rest).reverse ++ [ent.1])).find?
          (fun path => path.getLast? == some ".git") with
      | some p => .ok p
      | none => git_dir_search_loop fs rest

/-- The upward search started from the working directory `cwd`
(components root-first). -/
def git_dir_search (fs : Fs) (cwd : List String) : Except InitializationError (List String) :=
  git_dir_search_loop fs cwd.reverse

/-- `git_validate_status` (src/src/gti.rs, lines 71–107): match on the spawn
status of `git --version` — nonzero exit gives `GitValidation`, a spawn
failure gives `GitNotInstalled` — then read the current working directory
(`env::current_dir()?`, whose I/O error becomes `RepositoryUnsearchable`
via `#[from]`) and run the upward search. -/
def git_validate_status (spawn : SpawnResult) (cwd : Except IoError (List String)) (fs : Fs) :
    Except InitializationError (List String) :=
  match spawn with
  | .exited false => .error .GitValidation
  | .spawnErr => .error .GitNotInstalled
  | .exited true =>
    match cwd with
    | .error e => .error (.RepositoryUnsearchable e)
    | .ok cur => git_dir_search fs cur

/-- A concrete directory tree: a node is a file or a directory with a list
of named children. -/
inductive FsTree where
  | file
  | dir (es : List (String × FsTree))

/-- First child with the given name (path resolution step). -/
def firstMatch : List (String × FsTree) → String → Option FsTree
  | [], _ => none
  | (n, t) :: es, name => if n == name then some t else firstMatch es name

/-- Replace the first child with the given name. -/
def replaceFirst : List (String × FsTree) → String → FsTree → List (String × FsTree)
  | [], _, _ => []
  | (n, t) :: es, name, t' =>
    if n == name then (n, t') :: es else (n, t) :: replaceFirst es name t'

/-- `Path::exists`: the path resolves to some node. -/
def FsTree.existsAt : FsTree → List String → Bool
  | _, [] => true
  | .file, _ :: _ => false
  | .dir es, name :: rest =>
    match firstMatch es name with
    | some t => t.existsAt rest
    | none => false

/-- The path resolves to a directory node. -/
def FsTree.isDirAt : FsTree → List String → Bool
  | .dir _, [] => true
  | .file, _ => false
  | .dir es, name :: rest =>
    match firstMatch es name with
    | some t => t.isDirAt rest
    | none => false

/-- The listing of the directory at a path, when the path resolves to a
directory. -/
def FsTree.readDirAt : FsTree → List String → Option (List (String × FsTree))
  | .dir es, [] => some es
  | .file, _ => none
  | .dir es, name :: rest =>
    match firstMatch es name with
    | some t => t.readDirAt rest
    | none => none

/-- Number of children with a given name in the directory at a path
(0 when the path is not a readable directory). -/
def FsTree.countAt (fs : FsTree) (p : List String) (name : String) : Nat :=
  match fs.readDirAt p with
  | some es => es.countP (fun e => e.1 == name)
  | none => 0

/-- `DirBuilder::new().create`: non-recursive directory creation.  Fails on
the root, on a missing or non-directory ancestor, and on an already
existing final component; otherwise appends an empty directory. -/
def FsTree.mkdir : FsTree → List String → Except IoError FsTree
  | _, [] => .error ⟨.InvalidInput, "cannot create root"⟩
  | .file, _ :: _ => .error ⟨.NotADirectory, "not a directory"⟩
  | .dir es, [name] =>
    if (firstMatch es name).isSome then .error ⟨.AlreadyExists, "file exists"⟩
    else .ok (.dir (es ++ [(name, .dir [])]))
  | .dir es, name :: r :: rest =>
    match firstMatch es name with
    | some t => (t.mkdir (r :: rest)).map (fun t' => .dir (replaceFirst es name t'))
    | none => .error ⟨.NotFound, "no such file or directory"⟩

/-- The kind a directory entry reports for a node. -/
def FsTree.kindOf : FsTree → EntryKind
  | .file => .file
  | .dir _ => .dir

/-- The read oracle of a concrete tree: listings never carry per-entry
errors; a path that does not resolve to a directory yields a listing
error. -/
def FsTree.toFs (fs : FsTree) : Fs :=
  ⟨fun p =>
    match fs.readDirAt p with
    | some es => .ok (es.map (fun e => .ok (e.1, e.2.kindOf)))
    | none => .error ⟨.NotFound, "no such file or directory"⟩⟩

/-- The directory at path `p` has a child literally named `.git`
(of any kind). -/
def FsTree.hasGitEntry (fs : FsTree) (p : List String) : Bool :=
  match fs.readDirAt p with
  | some es => es.any (fun e => e.1 == ".git")
  | none => false

/-- Helper for `ascentChain`, over the reversed working directory. -/
def ascentChainRev : List String → List (List String)
  | [] => []
  | a :: r => (a :: r).reverse :: ascentChainRev r

/-- The directories the upward search visits, in visiting order: the
working directory, its parent, …, down to (but excluding) the root. -/
def ascentChain (cwd : List String) : List (List String) :=
  ascentChainRev cwd.reverse

/-- Over the abstract oracle: the listing of `q` succeeds and contains
(after dropping per-entry errors) an entry named `.git`. -/
def Fs.hasGitListed (fs : Fs) (q : List String) : Bool :=
  match fs.readDir q with
  | .ok listing => (listing.filterMap Except.toOption).any (fun e => e.1 == ".git")
  | .error _ => false

/-- The `GtiManager` struct (src/src/gti.rs, lines 45–48): its one field
is the sidecar directory path. -/
structure GtiManager where
  gti_dir : List String
deriving DecidableEq, Repr

/-- `GtiManager::new` (src/src/gti.rs, lines 52–68), with the filesystem
state passed explicitly: the second component is the filesystem after the
call (unchanged on every path except a successful directory creation). -/
def GtiManager.new (fs : FsTree) (repo_git_dir : List String) :
    Except IoError GtiManager × FsTree :=
  if !fs.existsAt repo_git_dir then
    (.error ⟨.NotFound, ".git directory not found"⟩, fs)
  else
    let gti_dir := repo_git_dir ++ ["x-gti-info"]
    if !fs.existsAt gti_dir then
      match fs.mkdir gti_dir with
      | .ok fs' => (.ok ⟨gti_dir⟩, fs')
      | .error e => (.error e, fs)
    else
      (.ok ⟨gti_dir⟩, fs)

/-- Observable outcome of one process run: lines printed to standard
output, lines printed to standard error, and the exit status. -/
structure RunResult where
  stdoutLines : List String
  stderrLines : List String
  exitCode : Nat
deriving DecidableEq, Repr

/-- The line the runtime prints on standard error when `main` returns an
`Err` (Rust's `Termination` for `io::Result`); the payload abstracts the
`Debug` formatting of the `io::Error`. -/
def ioErrorReport (e : IoError) : String :=
  "Error: " ++ reprStr e.kind ++ ": " ++ e.msg

/-- `main` (src/src/main.rs, lines 16–28): run the locator; on its failure
print one `fallback_log!` line `gti: <message>` to standard output and
`exit(1)`; otherwise run `GtiManager::new` on the discovered path, whose
error propagates out of `main` through `?` and is reported by the runtime
on standard error with exit status 1; on success exit with status 0. -/
def gti_main (spawn : SpawnResult) (cwd : Except IoError (List String)) (fs : FsTree) :
    RunResult :=
  match git_validate_status spawn cwd fs.toFs with
  | .error e => ⟨["gti: " ++ e.message], [], 1⟩
  | .ok repo_git_dir =>
    match GtiManager.new fs repo_git_dir with
    | (.error e, _) => ⟨[], [ioErrorReport e], 1⟩
    | (.ok _, _) => ⟨[], [], 0⟩

/-- The oracle with the same listings but every per-entry error dropped. -/
def Fs.dropEntryErrors (fs : Fs) : Fs :=
  ⟨fun p => (fs.readDir p).map (fun l => (l.filterMap Except.toOption).map Except.ok)⟩

/-! ## Concrete fixtures -/

/-- The I/O error carried by an unreadable directory entry. -/
def ioEntryErr : IoError := ⟨.Other, "entry unreadable"⟩

/-- An oracle whose working-directory listing opens fine but contains one
unreadable entry next to a `.git` entry. -/
def fsSkips : Fs :=
  ⟨fun p =>
    if p = ["a"] then .ok [.error ioEntryErr, .ok (".git", .dir)]
    else .error ⟨.Other, "boom"⟩⟩

/-- An oracle on which every directory listing fails to open. -/
def fsUnreadable : Fs := ⟨fun _ => .error ⟨.Other, "boom"⟩⟩

/-- The spec's scenario tree: `/home/user/project/.git` exists and the
working directory is `/home/user/project/src`. -/
def fsProject : FsTree :=
  .dir [("home", .dir [("user", .dir [("project",
    .dir [(".git", .dir []), ("src", .dir [])])])])]

/-- A tree whose only `.git` entry sits in the filesystem root itself. -/
def fsRootGit : FsTree :=
  .dir [(".git", .dir []), ("tmp", .dir [("empty", .dir [])])]

/-- A tree where the working directory contains a regular file named
`.git`. -/
def fsGitFile : FsTree := .dir [("a", .dir [(".git", .file)])]

/-- A root holding one empty `.git` directory. -/
def fsGitOnly : FsTree := .dir [(".git", .dir [])]

/-- `fsGitOnly` after the sidecar directory has been created. -/
def fsGitCreated : FsTree := .dir [(".git", .dir [("x-gti-info", .dir [])])]

/-- A `.git` directory whose `x-gti-info` entry is a regular file. -/
def fsGtiAsFile : FsTree := .dir [(".git", .dir [("x-gti-info", .file)])]

/-! ## Helper lemmas -/

theorem firstMatch_none_append {es : List (String × FsTree)} {name : String}
    (h : firstMatch es name = none) (es₂ : List (String × FsTree)) :
    firstMatch (es ++ es₂) name = firstMatch es₂ name := by
  induction es with
  | nil => simp
  | cons e es ih =>
    obtain ⟨n, t⟩ := e
    cases hn : n == name with
    | true => simp [firstMatch, hn] at h
    | false =>
      simp only [firstMatch, hn, if_false] at h
      simp only [List.cons_append, firstMatch, hn, if_false]
      exact ih h

theorem firstMatch_replaceFirst {es : List (String × FsTree)} {name : String} {t : FsTree}
    (h : firstMatch es name = some t) (t' : FsTree) :
    firstMatch (replaceFirst es name t') name = some t' := by
  induction es with
  | nil => simp [firstMatch] at h
  | cons e es ih =>
    obtain ⟨n, u⟩ := e
    cases hn : n == name with
    | true => simp [firstMatch, replaceFirst, hn]
    | false =>
      simp only [firstMatch, hn, if_false] at h
      simp only [replaceFirst, hn, if_false, firstMatch]
      exact ih h

theorem firstMatch_none_countP {es : List (String × FsTree)} {name : String}
    (h : firstMatch es name = none) :
    es.countP (fun e => e.1 == name) = 0 := by
  induction es with
  | nil => simp
  | cons e es ih =>
    obtain ⟨n, u⟩ := e
    cases hn : n == name with
    | true => simp [firstMatch, hn] at h
    | false =>
      simp only [firstMatch, hn, if_false] at h
      simp [List.countP_cons, hn, ih h]

theorem isDirAt_existsAt : ∀ (p : List String) (fs : FsTree),
    fs.isDirAt p = true → fs.existsAt p = true
  | [], .dir _, _ => rfl
  | [], .file, h => by simp [FsTree.isDirAt] at h
  | _ :: _, .file, h => by simp [FsTree.isDirAt] at h
  | name :: rest, .dir es, h => by
    simp only [FsTree.isDirAt, FsTree.existsAt] at h ⊢
    revert h
    cases firstMatch es name with
    | none => intro h; exact Bool.noConfusion h
    | some t => intro h; exact isDirAt_existsAt rest t h

theorem readDirAt_append_isSome : ∀ (q t : List String) (fs : FsTree),
    (fs.readDirAt (q ++ t)).isSome = true → (fs.readDirAt q).isSome = true
  | [], t, .dir _, _ => rfl
  | [], _, .file, h => by simp [FsTree.readDirAt] at h
  | _ :: _, _, .file, h => by simp [FsTree.readDirAt] at h
  | name :: q', t, .dir es, h => by
    simp only [List.cons_append, FsTree.readDirAt] at h ⊢
    revert h
    cases firstMatch es name with
    | none => intro h; simp at h
    | some u => intro h; exact readDirAt_append_isSome q' t u h

theorem find_git_path (cur : List String) (es : List (String × EntryKind)) :
    ((es.map (fun e => cur ++ [e.1])).find? (fun path => path.getLast? == some ".git"))
      = (es.find? (fun e => e.1 == ".git")).map (fun e => cur ++ [e.1]) := by
  induction es with
  | nil => simp
  | cons e es ih =>
    have hpred : ((cur ++ [e.1]).getLast? == some ".git") = (e.1 == ".git") := by
      rw [List.getLast?_concat]; rfl
    cases hg : e.1 == ".git" with
    | true => simp [List.find?_cons, hpred, hg]
    | false => simp [List.find?_cons, hpred, hg, ih]

theorem filterMap_toOption_map_ok {α : Type} (l : List α) (f : α → String × EntryKind) :
    ((l.map (fun e => (Except.ok (f e) : Except IoError (String × EntryKind)))).filterMap
      Except.toOption) = l.map f := by
  induction l with
  | nil => rfl
  | cons a l ih => simp [List.filterMap_cons, Except.toOption, ih]

theorem toFs_readDir (fs : FsTree) (p : List String) :
    (fs.toFs).readDir p
      = match fs.readDirAt p with
        | some es => .ok (es.map (fun e => .ok (e.1, e.2.kindOf)))
        | none => .error ⟨.NotFound, "no such file or directory"⟩ := rfl

theorem hasGitEntry_eq {fs : FsTree} {p : List String} {es : List (String × FsTree)}
    (hes : fs.readDirAt p = some es) :
    fs.hasGitEntry p = es.any (fun e => e.1 == ".git") := by
  simp [FsTree.hasGitEntry, hes]

theorem find?_name_kind (es : List (String × FsTree)) :
    ((es.map (fun e => ((e.1, e.2.kindOf) : String × EntryKind))).find?
        (fun e => e.1 == ".git"))
      = (es.find? (fun e => e.1 == ".git")).map (fun e => (e.1, e.2.kindOf)) := by
  induction es with
  | nil => rfl
  | cons e es ih =>
    cases hg : e.1 == ".git" with
    | true =>
      rw [List.map_cons,
        @List.find?_cons_of_pos _ (fun e => e.1 == ".git") (e.1, e.2.kindOf) _ hg,
        @List.find?_cons_of_pos _ (fun e => e.1 == ".git") e _ hg, Option.map_some']
    | false =>
      rw [List.map_cons,
        @List.find?_cons_of_neg _ (fun e => e.1 == ".git") (e.1, e.2.kindOf) _ (by simp [hg]),
        @List.find?_cons_of_neg _ (fun e => e.1 == ".git") e _ (by simp [hg]), ih]

/-- The `find` of the search loop at a directory of a concrete tree: first
entry named `.git`, mapped to its full path. -/
theorem loop_find_eq (cur : List String) (es : List (String × FsTree)) :
    ((((es.map (fun e => .ok (e.1, e.2.kindOf))).filterMap
          (Except.toOption (ε := IoError))).map (fun ent => cur ++ [ent.1])).find?
        (fun path => path.getLast? == some ".git"))
      = (es.find? (fun e => e.1 == ".git")).map (fun e => cur ++ [e.1]) := by
  rw [filterMap_toOption_map_ok es (fun e => (e.1, e.2.kindOf)), find_git_path,
    find?_name_kind, Option.map_map]
  rfl

/-- When the working directory is readable in the tree, the search loop
returns `q ++ [".git"]` for the first directory `q` on the ascent chain
with a child named `.git`, and `RepositoryNotFound` when there is none. -/
theorem loop_tree_spec (fs : FsTree) : ∀ rcur : List String,
    (fs.readDirAt rcur.reverse).isSome = true →
    git_dir_search_loop fs.toFs rcur
      = match (ascentChainRev rcur).find? (fun q => fs.hasGitEntry q) with
        | some q => .ok (q ++ [".git"])
        | none => .error .RepositoryNotFound
  | [], _ => by simp [git_dir_search_loop, ascentChainRev]
  | a :: r, hread => by
    obtain ⟨es, hes⟩ := Option.isSome_iff_exists.mp hread
    rw [List.reverse_cons] at hes
    have hcur : fs.hasGitEntry ((a :: r).reverse) = es.any (fun e => e.1 == ".git") := by
      rw [List.reverse_cons]; exact hasGitEntry_eq hes
    simp only [git_dir_search_loop, toFs_readDir, List.reverse_cons, hes]
    rw [loop_find_eq]
    cases hany : es.any (fun e => e.1 == ".git") with
    | true =>
      have hne : es.find? (fun e => e.1 == ".git") ≠ none := by
        intro hnone
        obtain ⟨x, hx, hpx⟩ := List.any_eq_true.mp hany
        exact (List.find?_eq_none.mp hnone x hx) hpx
      obtain ⟨x, hxeq⟩ := Option.ne_none_iff_exists'.mp hne
      have hx1 : x.1 = ".git" := by
        have := List.find?_some hxeq
        exact eq_of_beq this
      rw [ascentChainRev,
        @List.find?_cons_of_pos _ (fun q => fs.hasGitEntry q) ((a :: r).reverse) _
          (by show fs.hasGitEntry ((a :: r).reverse) = true; rw [hcur]; exact hany)]
      simp [hxeq, hx1, List.reverse_cons]
    | false =>
      have hfind : es.find? (fun e => e.1 == ".git") = none := by
        apply List.find?_eq_none.mpr
        intro x hx
        simpa using List.any_eq_false.mp hany x hx
      have hrrev : (fs.readDirAt r.reverse).isSome = true :=
        readDirAt_append_isSome r.reverse [a] fs (by rw [← List.reverse_cons]; exact hread)
      rw [hfind, Option.map_none']
      rw [ascentChainRev,
        @List.find?_cons_of_neg _ (fun q => fs.hasGitEntry q) ((a :: r).reverse) _
          (by show ¬fs.hasGitEntry ((a :: r).reverse) = true
              rw [hcur, hany]; exact Bool.false_ne_true)]
      exact loop_tree_spec fs r hrrev

theorem mkdir_isDirAt : ∀ (p : List String) (fs fs' : FsTree),
    fs.mkdir p = .ok fs' → fs'.isDirAt p = true
  | [], fs, _, h => by simp [FsTree.mkdir] at h
  | [_], .file, _, h => by simp [FsTree.mkdir] at h
  | _ :: _ :: _, .file, _, h => by simp [FsTree.mkdir] at h
  | [name], .dir es, fs', h => by
    cases hfm : firstMatch es name with
    | some t => simp [FsTree.mkdir, hfm] at h
    | none =>
      simp only [FsTree.mkdir, hfm, Option.isSome_none, Bool.false_eq_true, if_false,
        Except.ok.injEq] at h
      subst h
      simp [FsTree.isDirAt, firstMatch_none_append hfm, firstMatch]
  | name :: r :: rest, .dir es, fs', h => by
    cases hfm : firstMatch es name with
    | none => simp [FsTree.mkdir, hfm] at h
    | some t =>
      simp only [FsTree.mkdir, hfm] at h
      cases hmk : t.mkdir (r :: rest) with
      | error e => rw [hmk] at h; simp [Except.map] at h
      | ok t₁ =>
        rw [hmk] at h
        simp only [Except.map, Except.ok.injEq] at h
        subst h
        simp only [FsTree.isDirAt, firstMatch_replaceFirst hfm]
        exact mkdir_isDirAt (r :: rest) t t₁ hmk

theorem mkdir_insert : ∀ (p : List String) (g : String) (fs : FsTree),
    fs.isDirAt p = true → fs.existsAt (p ++ [g]) = false →
    ∃ fs', fs.mkdir (p ++ [g]) = .ok fs'
      ∧ fs'.existsAt p = true
      ∧ fs'.existsAt (p ++ [g]) = true
      ∧ fs'.isDirAt (p ++ [g]) = true
      ∧ fs'.countAt p g = 1
  | [], g, .file, hdir, _ => by simp [FsTree.isDirAt] at hdir
  | [], g, .dir es, _, habs => by
    simp only [List.nil_append] at habs ⊢
    have hfm : firstMatch es g = none := by
      cases hfm : firstMatch es g with
      | none => rfl
      | some t => simp [FsTree.existsAt, hfm] at habs
    refine ⟨.dir (es ++ [(g, .dir [])]), ?_, rfl, ?_, ?_, ?_⟩
    · simp [FsTree.mkdir, hfm]
    · simp [FsTree.existsAt, firstMatch_none_append hfm, firstMatch]
    · simp [FsTree.isDirAt, firstMatch_none_append hfm, firstMatch]
    · simp [FsTree.countAt, FsTree.readDirAt, List.countP_append,
        firstMatch_none_countP hfm, List.countP_cons]
  | n :: p', g, .file, hdir, _ => by simp [FsTree.isDirAt] at hdir
  | n :: p', g, .dir es, hdir, habs => by
    cases hfm : firstMatch es n with
    | none => simp [FsTree.isDirAt, hfm] at hdir
    | some t =>
      simp only [FsTree.isDirAt, hfm] at hdir
      simp only [List.cons_append, FsTree.existsAt, hfm] at habs
      obtain ⟨t₁, hmk, he1, he2, hd2, hc⟩ := mkdir_insert p' g t hdir habs
      obtain ⟨r, rest, hrr⟩ : ∃ r rest, p' ++ [g] = r :: rest := by
        cases p' with
        | nil => exact ⟨g, [], rfl⟩
        | cons x xs => exact ⟨x, xs ++ [g], rfl⟩
      refine ⟨.dir (replaceFirst es n t₁), ?_, ?_, ?_, ?_, ?_⟩
      · show FsTree.mkdir (.dir es) ((n :: p') ++ [g]) = .ok (.dir (replaceFirst es n t₁))
        rw [List.cons_append, hrr]
        simp only [FsTree.mkdir, hfm]
        rw [← hrr, hmk]
        rfl
      · simp only [FsTree.existsAt, firstMatch_replaceFirst hfm]
        exact he1
      · simp only [List.cons_append, FsTree.existsAt, firstMatch_replaceFirst hfm]
        exact he2
      · simp only [List.cons_append, FsTree.isDirAt, firstMatch_replaceFirst hfm]
        exact hd2
      · simp only [FsTree.countAt, FsTree.readDirAt, firstMatch_replaceFirst hfm] at hc ⊢
        exact hc

theorem loop_no_spawn_errors (fs : Fs) : ∀ rcur : List String,
    git_dir_search_loop fs rcur ≠ .error .GitNotInstalled
    ∧ git_dir_search_loop fs rcur ≠ .error .GitValidation
  | [] => by simp [git_dir_search_loop]
  | a :: r => by
    simp only [git_dir_search_loop]
    refine ⟨?_, ?_⟩
    · split
      · simp
      · split
        · simp
        · exact (loop_no_spawn_errors fs r).1
    · split
      · simp
      · split
        · simp
        · exact (loop_no_spawn_errors fs r).2

theorem isPrefixOf_rfl : ∀ l : List String, l.isPrefixOf l = true
  | [] => rfl
  | a :: l => by simp [List.isPrefixOf, isPrefixOf_rfl l]

theorem isPrefixOf_append_right : ∀ (q l t : List String),
    q.isPrefixOf l = true → q.isPrefixOf (l ++ t) = true
  | [], l, t, _ => by cases l <;> cases t <;> rfl
  | a :: q', [], t, h => by simp [List.isPrefixOf] at h
  | a :: q', b :: l', t, h => by
    simp only [List.isPrefixOf, Bool.and_eq_true] at h
    simp only [List.cons_append, List.isPrefixOf, Bool.and_eq_true]
    exact ⟨h.1, isPrefixOf_append_right q' l' t h.2⟩

theorem filterMap_ok_toOption (l : List (String × EntryKind)) :
    ((l.map (fun e => (Except.ok e : Except IoError (String × EntryKind)))).filterMap
      Except.toOption) = l := by
  induction l with
  | nil => rfl
  | cons a l ih => simp [List.filterMap_cons, Except.toOption, ih]

theorem loop_dropEntryErrors (fs : Fs) : ∀ rcur : List String,
    git_dir_search_loop fs.dropEntryErrors rcur = git_dir_search_loop fs rcur
  | [] => rfl
  | a :: r => by
    simp only [git_dir_search_loop]
    cases hrd : fs.readDir ((a :: r).reverse) with
    | error e =>
      have hd : fs.dropEntryErrors.readDir ((a :: r).reverse) = .error e := by
        show (fs.readDir ((a :: r).reverse)).map _ = _
        rw [hrd]; rfl
      rw [hd]
    | ok listing =>
      have hd : fs.dropEntryErrors.readDir ((a :: r).reverse)
          = .ok ((listing.filterMap Except.toOption).map Except.ok) := by
        show (fs.readDir ((a :: r).reverse)).map _ = _
        rw [hrd]; rfl
      rw [hd]
      simp only [filterMap_ok_toOption]
      split
      · rfl
      · exact loop_dropEntryErrors fs r

theorem loop_ok_shape (fs : Fs) : ∀ (rcur p : List String),
    git_dir_search_loop fs rcur = .ok p →
    p.getLast? = some ".git" ∧ p.dropLast.isPrefixOf rcur.reverse = true
      ∧ p.dropLast ≠ [] ∧ fs.hasGitListed p.dropLast = true
  | [], p, h => by simp [git_dir_search_loop] at h
  | a :: r, p, h => by
    simp only [git_dir_search_loop] at h
    split at h
    next e heq => simp at h
    next listing heq =>
      split at h
      next q heq2 =>
        obtain rfl : q = p := Except.ok.inj h
        have hpred := List.find?_some heq2
        obtain ⟨ent, hent, hqeq⟩ := List.mem_map.mp (List.mem_of_find?_eq_some heq2)
        have hlast : q.getLast? = some ".git" := eq_of_beq hpred
        have hdrop : q.dropLast = (a :: r).reverse := by
          rw [← hqeq, List.dropLast_concat]
        have hents : q.getLast? = some ent.1 := by
          rw [← hqeq]; exact List.getLast?_concat _
        have hname : ent.1 = ".git" := Option.some.inj (hents.symm.trans hlast)
        refine ⟨hlast, ?_, ?_, ?_⟩
        · rw [hdrop]; exact isPrefixOf_rfl _
        · rw [hdrop, List.reverse_cons]; simp
        · rw [hdrop]
          simp only [Fs.hasGitListed, heq]
          exact List.any_eq_true.mpr ⟨ent, hent, by simp [hname]⟩
      next heq2 =>
        obtain ⟨h1, h2, h3, h4⟩ := loop_ok_shape fs r p h
        refine ⟨h1, ?_, h3, h4⟩
        rw [List.reverse_cons]
        exact isPrefixOf_append_right _ _ [a] h2

/-! ## Claims -/

/-- C1: for every starting working directory that has a `.git` entry at or
above it (strictly below the filesystem root), `git_validate_status`
returns the full path of the nearest such entry — the first directory on
the ascent chain (working directory, then each ancestor, nearest first)
whose listing contains an entry named `.git` — and stops on that first
match without ascending further. -/
theorem C1_returns_nearest_git (fs : FsTree) (cwd p : List String)
    (hread : (fs.readDirAt cwd).isSome = true)
    (hfound : (ascentChain cwd).find? (fun q => fs.hasGitEntry q) = some p) :
    git_validate_status (.exited true) (.ok cwd) fs.toFs = .ok (p ++ [".git"]) := by
  have hrev : (fs.readDirAt cwd.reverse.reverse).isSome = true := by
    rw [List.reverse_reverse]; exact hread
  have hspec := loop_tree_spec fs cwd.reverse hrev
  simp only [ascentChain] at hfound
  show git_dir_search_loop fs.toFs cwd.reverse = .ok (p ++ [".git"])
  rw [hspec, hfound]

/-- Witness for C1, the spec's scenario: working directory
`/home/user/project/src` with `/home/user/project/.git` present. -/
theorem C1_witness :
    git_validate_status (.exited true) (.ok ["home", "user", "project", "src"]) fsProject.toFs
      = .ok (["home", "user", "project"] ++ [".git"]) :=
  C1_returns_nearest_git fsProject ["home", "user", "project", "src"]
    ["home", "user", "project"] rfl rfl

/-- C2: the upward search visits exactly the directories strictly below the
filesystem root; when none of them has an entry named `.git` — even when
the root itself has one — `git_validate_status` fails with
`RepositoryNotFound`. -/
theorem C2_not_found_below_root (fs : FsTree) (cwd : List String)
    (hread : (fs.readDirAt cwd).isSome = true)
    (hnone : (ascentChain cwd).find? (fun q => fs.hasGitEntry q) = none) :
    git_validate_status (.exited true) (.ok cwd) fs.toFs = .error .RepositoryNotFound := by
  have hrev : (fs.readDirAt cwd.reverse.reverse).isSome = true := by
    rw [List.reverse_reverse]; exact hread
  have hspec := loop_tree_spec fs cwd.reverse hrev
  simp only [ascentChain] at hnone
  show git_dir_search_loop fs.toFs cwd.reverse = .error .RepositoryNotFound
  rw [hspec, hnone]

/-- Witness for C2: the only `.git` is in the filesystem root itself, the
working directory is `/tmp/empty`, and the search still fails. -/
theorem C2_witness :
    git_validate_status (.exited true) (.ok ["tmp", "empty"]) fsRootGit.toFs
      = .error .RepositoryNotFound :=
  C2_not_found_below_root fsRootGit ["tmp", "empty"] rfl rfl

/-- C3: `git_validate_status` fails with `GitNotInstalled` exactly when the
child process could not spawn and with `GitValidation` exactly when it
exited nonzero; in either failure case the result does not depend on the
current working directory or the filesystem (no directory search is
attempted). -/
theorem C3_spawn_failure_classification (spawn : SpawnResult)
    (cwd : Except IoError (List String)) (fs : Fs) :
    (git_validate_status spawn cwd fs = .error .GitNotInstalled ↔ spawn = .spawnErr)
    ∧ (git_validate_status spawn cwd fs = .error .GitValidation ↔ spawn = .exited false)
    ∧ ((spawn = .spawnErr ∨ spawn = .exited false) →
        ∀ (cwd' : Except IoError (List String)) (fs' : Fs),
          git_validate_status spawn cwd fs = git_validate_status spawn cwd' fs') := by
  cases spawn with
  | spawnErr =>
    exact ⟨by simp [git_validate_status], by simp [git_validate_status], fun _ _ _ => rfl⟩
  | exited b =>
    cases b with
    | false =>
      exact ⟨by simp [git_validate_status], by simp [git_validate_status], fun _ _ _ => rfl⟩
    | true =>
      refine ⟨⟨fun h => ?_, fun h => SpawnResult.noConfusion h⟩,
        ⟨fun h => ?_, fun h => by injection h with hb; exact Bool.noConfusion hb⟩,
        fun hor => ?_⟩
      · exfalso
        cases cwd with
        | error e => simp [git_validate_status] at h
        | ok cur => exact (loop_no_spawn_errors fs cur.reverse).1 h
      · exfalso
        cases cwd with
        | error e => simp [git_validate_status] at h
        | ok cur => exact (loop_no_spawn_errors fs cur.reverse).2 h
      · rcases hor with h | h
        · exact SpawnResult.noConfusion h
        · injection h with hb; exact Bool.noConfusion hb

/-- Witness for C3: on a spawn failure the result is the same whatever the
working directory and filesystem are. -/
theorem C3_witness :
    git_validate_status .spawnErr (.ok ["a"]) fsSkips
      = git_validate_status .spawnErr (.error ⟨.Other, "x"⟩) fsUnreadable :=
  (C3_spawn_failure_classification .spawnErr (.ok ["a"]) fsSkips).2.2 (Or.inl rfl)
    (.error ⟨.Other, "x"⟩) fsUnreadable

/-- Counterexample to C4 as stated: the working directory's listing opens
with one unreadable entry next to a `.git` entry; the code's `.flatten()`
silently skips the erroring entry and the search succeeds instead of
aborting with `RepositoryUnsearchable` wrapping that error. -/
theorem C4_counterexample :
    git_validate_status (.exited true) (.ok ["a"]) fsSkips = .ok ["a", ".git"]
    ∧ git_validate_status (.exited true) (.ok ["a"]) fsSkips
        ≠ .error (.RepositoryUnsearchable ioEntryErr) := by
  refine ⟨rfl, fun h => ?_⟩
  rw [show git_validate_status (.exited true) (.ok ["a"]) fsSkips
      = .ok ["a", ".git"] from rfl] at h
  exact Except.noConfusion h

/-- C4 (amended): an I/O error while reading the current working directory,
or while opening a directory's listing, aborts the search immediately with
`RepositoryUnsearchable` wrapping that error; an I/O error on an individual
entry inside a successfully opened listing is silently skipped (the search
behaves exactly as if the erroring entries were absent). -/
theorem C4_amended_abort_semantics :
    (∀ (e : IoError) (fs : Fs),
      git_validate_status (.exited true) (.error e) fs
        = .error (.RepositoryUnsearchable e))
    ∧ (∀ (fs : Fs) (cwd : List String) (e : IoError), cwd ≠ [] →
        fs.readDir cwd = .error e →
        git_dir_search fs cwd = .error (.RepositoryUnsearchable e))
    ∧ (∀ (fs : Fs) (cwd : List String),
        git_dir_search fs.dropEntryErrors cwd = git_dir_search fs cwd) := by
  refine ⟨fun e fs => rfl, ?_, fun fs cwd => loop_dropEntryErrors fs cwd.reverse⟩
  intro fs cwd e hne hrd
  obtain ⟨a, r, hr⟩ : ∃ a r, cwd.reverse = a :: r := by
    cases hcr : cwd.reverse with
    | nil => exact absurd (List.reverse_eq_nil_iff.mp hcr) hne
    | cons a r => exact ⟨a, r, rfl⟩
  show git_dir_search_loop fs cwd.reverse = _
  rw [hr]
  simp only [git_dir_search_loop]
  have hcur : (a :: r).reverse = cwd := by rw [← hr, List.reverse_reverse]
  rw [hcur, hrd]

/-- Witness for the C4 theorem: an unreadable working directory and an
unopenable listing both abort with `RepositoryUnsearchable`. -/
theorem C4_witness :
    git_validate_status (.exited true) (.error ⟨.Other, "denied"⟩) fsUnreadable
      = .error (.RepositoryUnsearchable ⟨.Other, "denied"⟩)
    ∧ git_dir_search fsUnreadable ["a"] = .error (.RepositoryUnsearchable ⟨.Other, "boom"⟩) :=
  ⟨C4_amended_abort_semantics.1 ⟨.Other, "denied"⟩ fsUnreadable,
   C4_amended_abort_semantics.2.1 fsUnreadable ["a"] ⟨.Other, "boom"⟩ (by simp) rfl⟩

/-- C5: for a path that does not exist, `GtiManager::new` fails with a
not-found I/O error carrying the source's message, and the filesystem is
unchanged (nothing is created). -/
theorem C5_missing_git_dir (fs : FsTree) (p : List String)
    (h : fs.existsAt p = false) :
    GtiManager.new fs p = (.error ⟨.NotFound, ".git directory not found"⟩, fs) := by
  simp [GtiManager.new, h]

/-- Witness for C5: an empty root with no `.git`. -/
theorem C5_witness :
    GtiManager.new (.dir []) [".git"]
      = (.error ⟨.NotFound, ".git directory not found"⟩, .dir []) :=
  C5_missing_git_dir (.dir []) [".git"] rfl

/-- C6: for an existing `repo_git_dir`, `GtiManager::new` computes the
sidecar path as the join with the fixed name `x-gti-info`, creates it (as a
directory, non-recursively) exactly when it does not already exist, and
returns a manager wrapping that path. -/
theorem C6_sidecar_provisioning (fs : FsTree) (p : List String)
    (hex : fs.existsAt p = true) :
    (fs.existsAt (p ++ ["x-gti-info"]) = true →
      GtiManager.new fs p = (.ok ⟨p ++ ["x-gti-info"]⟩, fs))
    ∧ (∀ fs', fs.existsAt (p ++ ["x-gti-info"]) = false →
        fs.mkdir (p ++ ["x-gti-info"]) = .ok fs' →
        GtiManager.new fs p = (.ok ⟨p ++ ["x-gti-info"]⟩, fs')
          ∧ fs'.isDirAt (p ++ ["x-gti-info"]) = true) := by
  constructor
  · intro hx
    simp [GtiManager.new, hex, hx]
  · intro fs' hax hmk
    refine ⟨?_, mkdir_isDirAt _ fs fs' hmk⟩
    simp [GtiManager.new, hex, hax, hmk]

/-- Witness for C6: creation branch on a root holding one `.git`
directory. -/
theorem C6_witness :
    GtiManager.new fsGitOnly [".git"] = (.ok ⟨[".git"] ++ ["x-gti-info"]⟩, fsGitCreated)
    ∧ fsGitCreated.isDirAt ([".git"] ++ ["x-gti-info"]) = true :=
  (C6_sidecar_provisioning fsGitOnly [".git"] rfl).2 fsGitCreated rfl rfl

/-- C7: `GtiManager::new` is idempotent — on a valid existing `.git`
directory without a sidecar, the first construction succeeds and creates
the sidecar directory, a second construction returns exactly the same
result and leaves the filesystem untouched, and the `.git` directory then
holds exactly one entry named `x-gti-info`. -/
theorem C7_new_idempotent (fs : FsTree) (p : List String)
    (hdir : fs.isDirAt p = true)
    (habs : fs.existsAt (p ++ ["x-gti-info"]) = false) :
    (GtiManager.new fs p).1 = .ok ⟨p ++ ["x-gti-info"]⟩
    ∧ ((GtiManager.new fs p).2).existsAt (p ++ ["x-gti-info"]) = true
    ∧ GtiManager.new ((GtiManager.new fs p).2) p = GtiManager.new fs p
    ∧ ((GtiManager.new fs p).2).countAt p "x-gti-info" = 1 := by
  have hex : fs.existsAt p = true := isDirAt_existsAt p fs hdir
  obtain ⟨fs₁, hmk, he1, he2, hd2, hc⟩ := mkdir_insert p "x-gti-info" fs hdir habs
  have hnew : GtiManager.new fs p = (.ok ⟨p ++ ["x-gti-info"]⟩, fs₁) := by
    simp [GtiManager.new, hex, habs, hmk]
  have hnew2 : GtiManager.new fs₁ p = (.ok ⟨p ++ ["x-gti-info"]⟩, fs₁) := by
    simp [GtiManager.new, he1, he2]
  rw [hnew]
  exact ⟨rfl, he2, hnew2, hc⟩

/-- Witness for C7 on a root holding one empty `.git` directory. -/
theorem C7_witness :
    (GtiManager.new fsGitOnly [".git"]).1 = .ok ⟨[".git"] ++ ["x-gti-info"]⟩
    ∧ ((GtiManager.new fsGitOnly [".git"]).2).existsAt ([".git"] ++ ["x-gti-info"]) = true
    ∧ GtiManager.new ((GtiManager.new fsGitOnly [".git"]).2) [".git"]
        = GtiManager.new fsGitOnly [".git"]
    ∧ ((GtiManager.new fsGitOnly [".git"]).2).countAt [".git"] "x-gti-info" = 1 :=
  C7_new_idempotent fsGitOnly [".git"] rfl rfl

/-- Counterexample to C8 as stated: when the Sidecar Manager fails (here:
the located `.git` is a file, so creating the sidecar beneath it fails),
the process exits with status 1 but prints nothing to standard output — no
`gti: <message>` line is emitted for this failure. -/
theorem C8_counterexample :
    (gti_main (.exited true) (.ok ["a"]) fsGitFile).exitCode = 1
    ∧ (gti_main (.exited true) (.ok ["a"]) fsGitFile).stdoutLines = [] := ⟨rfl, rfl⟩

/-- C8 (amended): on a Locator failure the entry point prints the single
line `gti: <error message>` to standard output and exits with status 1; on
a Sidecar Manager failure the error propagates out of `main` and is
reported by the runtime on standard error, again with exit status 1; on
success the process exits with status 0 printing nothing. -/
theorem C8_amended_exit_behavior :
    (∀ (spawn : SpawnResult) (cwd : Except IoError (List String)) (fs : FsTree)
        (e : InitializationError),
      git_validate_status spawn cwd fs.toFs = .error e →
      gti_main spawn cwd fs = ⟨["gti: " ++ e.message], [], 1⟩)
    ∧ (∀ (spawn : SpawnResult) (cwd : Except IoError (List String)) (fs : FsTree)
        (p : List String) (e : IoError),
        git_validate_status spawn cwd fs.toFs = .ok p →
        (GtiManager.new fs p).1 = .error e →
        gti_main spawn cwd fs = ⟨[], [ioErrorReport e], 1⟩)
    ∧ (∀ (spawn : SpawnResult) (cwd : Except IoError (List String)) (fs : FsTree)
        (p : List String) (m : GtiManager),
        git_validate_status spawn cwd fs.toFs = .ok p →
        (GtiManager.new fs p).1 = .ok m →
        gti_main spawn cwd fs = ⟨[], [], 0⟩) := by
  refine ⟨?_, ?_, ?_⟩
  · intro spawn cwd fs e hv
    simp [gti_main, hv]
  · intro spawn cwd fs p e hv hn
    simp only [gti_main, hv]
    cases hnp : GtiManager.new fs p with
    | mk res fs2 =>
      rw [hnp] at hn
      cases res with
      | error e2 =>
        have he2 : e2 = e := by simpa using hn
        subst he2
        rfl
      | ok m => simp at hn
  · intro spawn cwd fs p m hv hn
    simp only [gti_main, hv]
    cases hnp : GtiManager.new fs p with
    | mk res fs2 =>
      rw [hnp] at hn
      cases res with
      | error e2 => simp at hn
      | ok m2 => rfl

/-- Witness for the C8 theorem: a spawn failure logs through
`fallback_log!` and exits 1; a manager failure reports on standard error
and exits 1; the spec scenario succeeds and exits 0. -/
theorem C8_witness :
    gti_main .spawnErr (.ok ["a"]) fsProject
      = ⟨["gti: " ++ InitializationError.GitNotInstalled.message], [], 1⟩
    ∧ gti_main (.exited true) (.ok ["a"]) fsGitFile
        = ⟨[], [ioErrorReport ⟨.NotADirectory, "not a directory"⟩], 1⟩
    ∧ gti_main (.exited true) (.ok ["home", "user", "project", "src"]) fsProject
        = ⟨[], [], 0⟩ :=
  ⟨C8_amended_exit_behavior.1 .spawnErr (.ok ["a"]) fsProject .GitNotInstalled rfl,
   C8_amended_exit_behavior.2.1 (.exited true) (.ok ["a"]) fsGitFile ["a", ".git"]
     ⟨.NotADirectory, "not a directory"⟩ rfl rfl,
   C8_amended_exit_behavior.2.2 (.exited true) (.ok ["home", "user", "project", "src"])
     fsProject ["home", "user", "project", ".git"]
     ⟨["home", "user", "project", ".git", "x-gti-info"]⟩ rfl rfl⟩

/-- Counterexample to C9 as stated: the working directory holds a regular
file named `.git`; the search returns its path even though it is not a
directory. -/
theorem C9_counterexample :
    git_validate_status (.exited true) (.ok ["a"]) fsGitFile.toFs = .ok ["a", ".git"]
    ∧ fsGitFile.isDirAt ["a", ".git"] = false := ⟨rfl, rfl⟩

/-- C9 (amended): the search matches any directory entry literally named
`.git` regardless of its kind; every returned path is a visited ancestor of
the working directory (strictly below the root) joined with `.git`, where
that ancestor's listing contains an entry of some kind named `.git`. -/
theorem C9_amended_any_entry_kind (fs : Fs) (cwd p : List String)
    (h : git_validate_status (.exited true) (.ok cwd) fs = .ok p) :
    p.getLast? = some ".git" ∧ p.dropLast.isPrefixOf cwd = true
      ∧ p.dropLast ≠ [] ∧ fs.hasGitListed p.dropLast = true := by
  obtain ⟨h1, h2, h3, h4⟩ := loop_ok_shape fs cwd.reverse p h
  rw [List.reverse_reverse] at h2
  exact ⟨h1, h2, h3, h4⟩

/-- Witness for the C9 theorem at the file-`.git` fixture. -/
theorem C9_witness :
    (["a", ".git"].getLast? = some ".git")
    ∧ ["a", ".git"].dropLast.isPrefixOf ["a"] = true
    ∧ ["a", ".git"].dropLast ≠ []
    ∧ fsGitFile.toFs.hasGitListed ["a", ".git"].dropLast = true :=
  C9_amended_any_entry_kind fsGitFile.toFs ["a"] ["a", ".git"] rfl

/-- C10: when the sidecar path already exists — whatever its kind —
`GtiManager::new` succeeds without creating or modifying anything and
returns a manager wrapping that path; construction never checks that the
existing sidecar entry is a directory. -/
theorem C10_existing_sidecar_unchecked (fs : FsTree) (p : List String)
    (h1 : fs.existsAt p = true)
    (h2 : fs.existsAt (p ++ ["x-gti-info"]) = true) :
    GtiManager.new fs p = (.ok ⟨p ++ ["x-gti-info"]⟩, fs) := by
  simp [GtiManager.new, h1, h2]

/-- Witness for C10: the existing sidecar entry is a regular file and
construction still succeeds, leaving the filesystem unchanged. -/
theorem C10_witness :
    fsGtiAsFile.isDirAt ([".git"] ++ ["x-gti-info"]) = false
    ∧ GtiManager.new fsGtiAsFile [".git"] = (.ok ⟨[".git"] ++ ["x-gti-info"]⟩, fsGtiAsFile) :=
  ⟨rfl, C10_existing_sidecar_unchecked fsGtiAsFile [".git"] rfl rfl⟩
